import Mathlib

/-!
# Verification of `map_tx_coordinates.py`

A shallow embedding of the CIGAR-string coordinate-translation tool
(`src/map_tx_coordinates.py`) and proofs about it.

The Python program has three algorithmic pieces, all in class `CIGARString`:

* `__parse_cigar_str` — parses a CIGAR string such as `"8M7D6M2I"` into a
  list of `(int, char)` pairs by filtering the alphabetic characters and
  splitting the string on the operation symbols `M D I S H = X`;
* `map_coordinate` — a single-pass walk translating a 0-based transcript
  position to a 0-based genomic position;
* `get_tx_length` — the transcript length, i.e. the sum of the lengths of
  the `M` and `I` regions.

Python `int` is modelled by `Int`; list indexing `self.cigar[region_ix]`
guarded by `region_ix < len(self.cigar)` is modelled with `List.getElem?`.
The `warnings.warn` call in the insertion branch of `map_coordinate` is
modelled by a Boolean flag `warned` carried through the walk state and
reported in the result.
-/

namespace MapTxCoordinates

/-- The operation symbols of the regex character class `[MDISH=X]` used by
`re.split` in `__parse_cigar_str`. -/
def isOpChar (c : Char) : Bool :=
  c = 'M' || c = 'D' || c = 'I' || c = 'S' || c = 'H' || c = '=' || c = 'X'

/-- Model of `re.split('[MDISH=X]', s)` on the character list of `s`:
split on every occurrence of an operation symbol, keeping empty segments,
so the number of segments is the number of delimiters plus one. -/
def splitOps : List Char → List (List Char)
  | [] => [[]]
  | c :: rest =>
    if isOpChar c then
      [] :: splitOps rest
    else
      match splitOps rest with
      | [] => [[c]]
      | seg :: segs => (c :: seg) :: segs

/-- Value of a nonempty list of decimal digits; `none` if the list is empty
or contains a non-digit character. -/
def digitsToNat? (cs : List Char) : Option Nat :=
  if cs.isEmpty then none
  else
    cs.foldl
      (fun acc c =>
        match acc with
        | none => none
        | some n => if c.isDigit then some (n * 10 + (c.toNat - '0'.toNat)) else none)
      (some 0)

/-- Model of Python `int(segment)` on the segments produced by the split:
an optional sign followed by one or more decimal digits, `none` (the
`ValueError`) otherwise.  (Python's `int` also tolerates surrounding
whitespace and underscores between digits; those forms are not modelled —
no claim exercises them.) -/
def pyInt (cs : List Char) : Option Int :=
  match cs with
  | '-' :: rest => (digitsToNat? rest).map (fun n => -(n : Int))
  | '+' :: rest => (digitsToNat? rest).map (fun n => (n : Int))
  | _ => (digitsToNat? cs).map (fun n => (n : Int))

/-- Model of `CIGARString.__parse_cigar_str`:
`chars_list` collects the alphabetic characters, `int_list` is the split on
operation symbols with the last segment removed (`int_list.pop()`), each
remaining segment goes through `int(...)` (`none` models the `ValueError`),
and the two lists are paired positionally by `zip`, which truncates to the
shorter list. -/
def parse_cigar_str (s : String) : Option (List (Int × Char)) :=
  let chars_list := s.toList.filter Char.isAlpha
  let int_list := (splitOps s.toList).dropLast
  (int_list.mapM pyInt).map (fun ints => ints.zip chars_list)

/-- Model of `CIGARString.get_tx_length`: sum of the lengths of the `M`
and `I` regions. -/
def get_tx_length (cigar : List (Int × Char)) : Int :=
  ((cigar.filter (fun region => region.2 == 'M' || region.2 == 'I')).map
    (fun region => region.1)).sum

/-- The loop state of `CIGARString.map_coordinate`, one field per local
variable of the Python walk, plus `warned`, which records whether the
`warnings.warn` call in the insertion branch has fired. -/
structure WalkSt where
  curr_pos : Int
  region_ix : Nat
  within_region_ix : Int
  tx_ix : Int
  reached_end_of_region : Bool
  curr_region_length : Int
  curr_region_type : Char
  warned : Bool
  deriving Repr, DecidableEq

/-- The `if/elif/elif` block of the walk: one step inside the current
region.  `M` advances the genomic position by one and the within-region
index by one, flagging the region end when the index reaches
`length - 1`; `D` jumps the genomic position by `length + 1` and flags the
region end; `I` jumps the transcript index by `length`, advances the
genomic position by one, flags the region end, and warns when the queried
position was skipped (`tx_pos <= tx_ix`); any other operation symbol does
nothing. -/
def stepRegion (tx_pos : Int) (s : WalkSt) : WalkSt :=
  if s.curr_region_type = 'M' then
    { s with
      curr_pos := s.curr_pos + 1
      within_region_ix := s.within_region_ix + 1
      reached_end_of_region :=
        if s.within_region_ix + 1 = s.curr_region_length - 1 then true
        else s.reached_end_of_region }
  else if s.curr_region_type = 'D' then
    { s with
      curr_pos := s.curr_pos + s.curr_region_length + 1
      reached_end_of_region := true }
  else if s.curr_region_type = 'I' then
    { s with
      tx_ix := s.tx_ix + s.curr_region_length
      curr_pos := s.curr_pos + 1
      reached_end_of_region := true
      warned := s.warned || decide (tx_pos ≤ s.tx_ix + s.curr_region_length) }
  else
    s

/-- The `if reached_end_of_region` block of the walk: increment
`region_ix` and, when the new index is still in range, load the next
region and clear the flag. -/
def advanceRegion (cigar : List (Int × Char)) (s : WalkSt) : WalkSt :=
  if s.reached_end_of_region then
    match cigar[s.region_ix + 1]? with
    | some region =>
      { s with
        region_ix := s.region_ix + 1
        curr_region_length := region.1
        curr_region_type := region.2
        within_region_ix := 0
        reached_end_of_region := false }
    | none => { s with region_ix := s.region_ix + 1 }
  else
    s

/-- One full iteration of the `while tx_ix < tx_pos` loop body: the region
step, the region advance, then the unconditional `tx_ix += 1`. -/
def step (cigar : List (Int × Char)) (tx_pos : Int) (s : WalkSt) : WalkSt :=
  let s2 := advanceRegion cigar (stepRegion tx_pos s)
  { s2 with tx_ix := s2.tx_ix + 1 }

/-- The `while tx_ix < tx_pos` loop, with explicit fuel; `none` marks fuel
exhaustion (the Python loop would still be running). -/
def walkLoop (cigar : List (Int × Char)) (tx_pos : Int) : Nat → WalkSt → Option WalkSt
  | 0, s => if s.tx_ix < tx_pos then none else some s
  | fuel + 1, s =>
    if s.tx_ix < tx_pos then walkLoop cigar tx_pos fuel (step cigar tx_pos s)
    else some s

/-- Outcome of `CIGARString.map_coordinate`:
`ok` is a normal return carrying the genomic position and whether the
insertion-ambiguity warning fired; `outOfBounds` is the `ValueError`
raised by the bounds check, carrying the data interpolated into its
message (the queried position, the transcript length and the CIGAR
string); `emptyCigar` marks the `IndexError` that reading `self.cigar[0]`
would raise on an empty region list; `noTermination` marks fuel
exhaustion of the walk. -/
inductive MapResult where
  | ok (genomic_pos : Int) (warned : Bool)
  | outOfBounds (tx_pos : Int) (tx_length : Int) (cigar_str : String)
  | emptyCigar
  | noTermination
  deriving Repr, DecidableEq

/-- The initial walk state of `map_coordinate`: the genomic position at
`mapping_start_pos`, all indices at zero, and the current region loaded
from region 0 of the CIGAR. -/
def initSt (mapping_start_pos : Int) (region0 : Int × Char) : WalkSt :=
  { curr_pos := mapping_start_pos
    region_ix := 0
    within_region_ix := 0
    tx_ix := 0
    reached_end_of_region := false
    curr_region_length := region0.1
    curr_region_type := region0.2
    warned := false }

/-- Model of `CIGARString.map_coordinate`: bounds check, then initialise
the state from region 0 and run the walk.  The fuel `tx_pos.toNat` is
sufficient whenever every region length is nonnegative, since each
iteration increases `tx_ix` by at least one (proved below). -/
def map_coordinate (cigar_str : String) (cigar : List (Int × Char))
    (tx_pos : Int) (mapping_start_pos : Int) : MapResult :=
  if tx_pos < 0 ∨ get_tx_length cigar ≤ tx_pos then
    .outOfBounds tx_pos (get_tx_length cigar) cigar_str
  else
    match cigar with
    | [] => .emptyCigar
    | region0 :: _ =>
      match walkLoop cigar tx_pos tx_pos.toNat (initSt mapping_start_pos region0) with
      | some s => .ok s.curr_pos s.warned
      | none => .noTermination

/-- Transcript length written as the spec words it: every region
contributes its `length` when its operation is Match or Insertion and `0`
otherwise (Deletions contribute nothing).  Stated from the spec, to be
compared with `get_tx_length`, which is translated from the code. -/
def transcriptLength_spec (cigar : List (Int × Char)) : Int :=
  (cigar.map (fun region => if region.2 = 'M' ∨ region.2 = 'I' then region.1 else 0)).sum

/-! ## Structural lemmas about the walk -/

/-- `stepRegion` never changes the current region's length. -/
lemma stepRegion_curr_region_length (tx_pos : Int) (s : WalkSt) :
    (stepRegion tx_pos s).curr_region_length = s.curr_region_length := by
  unfold stepRegion
  split_ifs <;> rfl

/-- `stepRegion` never changes the current region's type. -/
lemma stepRegion_curr_region_type (tx_pos : Int) (s : WalkSt) :
    (stepRegion tx_pos s).curr_region_type = s.curr_region_type := by
  unfold stepRegion
  split_ifs <;> rfl

/-- `stepRegion` never changes the region index. -/
lemma stepRegion_region_ix (tx_pos : Int) (s : WalkSt) :
    (stepRegion tx_pos s).region_ix = s.region_ix := by
  unfold stepRegion
  split_ifs <;> rfl

/-- When the current region's length is nonnegative, `stepRegion` never
decreases the transcript index (only the insertion branch moves it, by the
region length). -/
lemma stepRegion_tx_ix_le (tx_pos : Int) (s : WalkSt)
    (h : 0 ≤ s.curr_region_length) :
    s.tx_ix ≤ (stepRegion tx_pos s).tx_ix := by
  unfold stepRegion
  split_ifs <;> (first | (simp; omega) | simp)

/-- When the current region's length is nonnegative, `stepRegion` never
decreases the genomic position. -/
lemma stepRegion_curr_pos_le (tx_pos : Int) (s : WalkSt)
    (h : 0 ≤ s.curr_region_length) :
    s.curr_pos ≤ (stepRegion tx_pos s).curr_pos := by
  unfold stepRegion
  split_ifs <;> (first | (simp; omega) | simp)

/-- When the current region is not an insertion, `stepRegion` does not
depend on the queried transcript position. -/
lemma stepRegion_of_ne_insertion (p q : Int) (s : WalkSt)
    (h : s.curr_region_type ≠ 'I') :
    stepRegion p s = stepRegion q s := by
  unfold stepRegion
  split_ifs <;> rfl

/-- `advanceRegion` never changes the transcript index. -/
lemma advanceRegion_tx_ix (cigar : List (Int × Char)) (s : WalkSt) :
    (advanceRegion cigar s).tx_ix = s.tx_ix := by
  unfold advanceRegion
  split
  · split <;> rfl
  · rfl

/-- `advanceRegion` never changes the genomic position. -/
lemma advanceRegion_curr_pos (cigar : List (Int × Char)) (s : WalkSt) :
    (advanceRegion cigar s).curr_pos = s.curr_pos := by
  unfold advanceRegion
  split
  · split <;> rfl
  · rfl

/-- When every region length of the CIGAR is nonnegative, `advanceRegion`
keeps the current region's length nonnegative (the loaded value comes
from the CIGAR list). -/
lemma advanceRegion_curr_region_length_nonneg (cigar : List (Int × Char)) (s : WalkSt)
    (hcigar : ∀ r ∈ cigar, 0 ≤ r.1) (hs : 0 ≤ s.curr_region_length) :
    0 ≤ (advanceRegion cigar s).curr_region_length := by
  unfold advanceRegion
  split
  · split
    · rename_i region hget
      exact hcigar region (List.getElem?_mem hget)
    · exact hs
  · exact hs

/-- When no region of the CIGAR is an insertion, `advanceRegion` keeps the
current region's type different from `'I'`. -/
lemma advanceRegion_curr_region_type_ne (cigar : List (Int × Char)) (s : WalkSt)
    (hcigar : ∀ r ∈ cigar, r.2 ≠ 'I') (hs : s.curr_region_type ≠ 'I') :
    (advanceRegion cigar s).curr_region_type ≠ 'I' := by
  unfold advanceRegion
  split
  · split
    · rename_i region hget
      exact hcigar region (List.getElem?_mem hget)
    · exact hs
  · exact hs

/-- One loop iteration strictly increases the transcript index, provided
the current region's length is nonnegative: every branch leaves `tx_ix`
in place or moves it forward, and the final unconditional `tx_ix += 1`
then makes the increase strict. -/
lemma step_tx_ix_lt (cigar : List (Int × Char)) (tx_pos : Int) (s : WalkSt)
    (h : 0 ≤ s.curr_region_length) :
    s.tx_ix + 1 ≤ (step cigar tx_pos s).tx_ix := by
  unfold step
  simp only [advanceRegion_tx_ix]
  have := stepRegion_tx_ix_le tx_pos s h
  omega

/-- One loop iteration never decreases the genomic position, provided the
current region's length is nonnegative. -/
lemma step_curr_pos_le (cigar : List (Int × Char)) (tx_pos : Int) (s : WalkSt)
    (h : 0 ≤ s.curr_region_length) :
    s.curr_pos ≤ (step cigar tx_pos s).curr_pos := by
  unfold step
  simp only [advanceRegion_curr_pos]
  exact stepRegion_curr_pos_le tx_pos s h

/-- One loop iteration keeps the current region's length nonnegative when
every region length of the CIGAR is nonnegative. -/
lemma step_curr_region_length_nonneg (cigar : List (Int × Char)) (tx_pos : Int) (s : WalkSt)
    (hcigar : ∀ r ∈ cigar, 0 ≤ r.1) (hs : 0 ≤ s.curr_region_length) :
    0 ≤ (step cigar tx_pos s).curr_region_length := by
  unfold step
  simp only []
  exact advanceRegion_curr_region_length_nonneg cigar _ hcigar
    (by rw [stepRegion_curr_region_length]; exact hs)

/-- One loop iteration keeps the current region's type different from
`'I'` when no region of the CIGAR is an insertion. -/
lemma step_curr_region_type_ne (cigar : List (Int × Char)) (tx_pos : Int) (s : WalkSt)
    (hcigar : ∀ r ∈ cigar, r.2 ≠ 'I') (hs : s.curr_region_type ≠ 'I') :
    (step cigar tx_pos s).curr_region_type ≠ 'I' := by
  unfold step
  simp only []
  exact advanceRegion_curr_region_type_ne cigar _ hcigar
    (by rw [stepRegion_curr_region_type]; exact hs)

/-- When no region of the CIGAR is an insertion and the current region's
type is not `'I'`, one loop iteration does not depend on the queried
transcript position. -/
lemma step_of_ne_insertion (cigar : List (Int × Char)) (p q : Int) (s : WalkSt)
    (hs : s.curr_region_type ≠ 'I') :
    step cigar p s = step cigar q s := by
  unfold step
  rw [stepRegion_of_ne_insertion p q s hs]

/-- When the loop condition is false the walk returns its state at once,
whatever the fuel. -/
lemma walkLoop_of_not_lt (cigar : List (Int × Char)) (tx_pos : Int)
    (fuel : Nat) (s : WalkSt) (h : ¬ s.tx_ix < tx_pos) :
    walkLoop cigar tx_pos fuel s = some s := by
  cases fuel <;> simp [walkLoop, h]

/-- Fuel sufficiency: when every region length of the CIGAR is
nonnegative, the walk completes within `tx_pos - tx_ix` iterations,
because each iteration increases `tx_ix` by at least one. -/
lemma walkLoop_isSome (cigar : List (Int × Char)) (tx_pos : Int)
    (hcigar : ∀ r ∈ cigar, 0 ≤ r.1) :
    ∀ (fuel : Nat) (s : WalkSt), 0 ≤ s.curr_region_length →
      tx_pos ≤ s.tx_ix + fuel →
      ∃ s', walkLoop cigar tx_pos fuel s = some s' := by
  intro fuel
  induction fuel with
  | zero =>
    intro s _ hle
    refine ⟨s, ?_⟩
    simp only [Nat.cast_zero, add_zero] at hle
    exact walkLoop_of_not_lt cigar tx_pos 0 s (by omega)
  | succ f ih =>
    intro s hlen hle
    by_cases hlt : s.tx_ix < tx_pos
    · have hstep := step_tx_ix_lt cigar tx_pos s hlen
      have hlen' := step_curr_region_length_nonneg cigar tx_pos s hcigar hlen
      obtain ⟨s', hs'⟩ := ih (step cigar tx_pos s) hlen' (by push_cast at hle ⊢; omega)
      exact ⟨s', by simpa [walkLoop, hlt] using hs'⟩
    · exact ⟨s, walkLoop_of_not_lt cigar tx_pos (f + 1) s hlt⟩

/-- The genomic position of the walk's final state is at least that of
the starting state, when every region length of the CIGAR is
nonnegative. -/
lemma walkLoop_curr_pos_le (cigar : List (Int × Char)) (tx_pos : Int)
    (hcigar : ∀ r ∈ cigar, 0 ≤ r.1) :
    ∀ (fuel : Nat) (s s' : WalkSt), 0 ≤ s.curr_region_length →
      walkLoop cigar tx_pos fuel s = some s' →
      s.curr_pos ≤ s'.curr_pos := by
  intro fuel
  induction fuel with
  | zero =>
    intro s s' _ h
    simp only [walkLoop] at h
    split at h
    · exact absurd h (by simp)
    · obtain rfl : s = s' := by simpa using h
      exact le_refl _
  | succ f ih =>
    intro s s' hlen h
    simp only [walkLoop] at h
    split at h
    · have hlen' := step_curr_region_length_nonneg cigar tx_pos s hcigar hlen
      exact le_trans (step_curr_pos_le cigar tx_pos s hlen) (ih _ s' hlen' h)
    · obtain rfl : s = s' := by simpa using h
      exact le_refl _

/-- Monotonicity of the walk in the queried transcript position, for a
CIGAR with no insertion regions: from the same starting state, walking
toward a position `p ≤ q` stops no later than walking toward `q`, and
since every iteration only moves the genomic position forward, the final
genomic position for `p` is at most that for `q`.  (Absent insertions the
iteration does not depend on the queried position, so both walks traverse
the same states.) -/
lemma walkLoop_curr_pos_mono (cigar : List (Int × Char)) (p q : Int)
    (hcigar : ∀ r ∈ cigar, 0 ≤ r.1) (hins : ∀ r ∈ cigar, r.2 ≠ 'I')
    (hpq : p ≤ q) :
    ∀ (fq fp : Nat) (s sp sq : WalkSt),
      0 ≤ s.curr_region_length → s.curr_region_type ≠ 'I' →
      walkLoop cigar p fp s = some sp →
      walkLoop cigar q fq s = some sq →
      sp.curr_pos ≤ sq.curr_pos := by
  intro fq
  induction fq with
  | zero =>
    intro fp s sp sq _ _ hp hq
    simp only [walkLoop] at hq
    split at hq
    · exact absurd hq (by simp)
    · obtain rfl : s = sq := by simpa using hq
      rename_i hnlt
      rw [walkLoop_of_not_lt cigar p fp s (by omega)] at hp
      obtain rfl : s = sp := by simpa using hp
      exact le_refl _
  | succ f ih =>
    intro fp s sp sq hlen htype hp hq
    simp only [walkLoop] at hq
    split at hq
    · rename_i hltq
      have hlen' := step_curr_region_length_nonneg cigar q s hcigar hlen
      have htype' := step_curr_region_type_ne cigar q s hins htype
      by_cases hltp : s.tx_ix < p
      · cases fp with
        | zero => simp [walkLoop, hltp] at hp
        | succ f' =>
          simp only [walkLoop, if_pos hltp] at hp
          rw [step_of_ne_insertion cigar p q s htype] at hp
          exact ih f' (step cigar q s) sp sq hlen' htype' hp hq
      · rw [walkLoop_of_not_lt cigar p fp s hltp] at hp
        obtain rfl : s = sp := by simpa using hp
        exact le_trans (step_curr_pos_le cigar q s hlen)
          (walkLoop_curr_pos_le cigar q hcigar f _ sq hlen' hq)
    · obtain rfl : s = sq := by simpa using hq
      rename_i hnlt
      rw [walkLoop_of_not_lt cigar p fp s (by omega)] at hp
      obtain rfl : s = sp := by simpa using hp
      exact le_refl _

/-- An in-bounds query on a CIGAR whose region lengths are all
nonnegative runs the walk to completion and returns `ok` with the final
state's genomic position and warning flag. -/
lemma map_coordinate_eq_ok (cigar_str : String) (cigar : List (Int × Char))
    (tx_pos mapping_start_pos : Int)
    (hcigar : ∀ r ∈ cigar, 0 ≤ r.1)
    (h0 : 0 ≤ tx_pos) (hlt : tx_pos < get_tx_length cigar) :
    ∃ region0 rest s',
      cigar = region0 :: rest ∧
      walkLoop cigar tx_pos tx_pos.toNat (initSt mapping_start_pos region0) = some s' ∧
      map_coordinate cigar_str cigar tx_pos mapping_start_pos = .ok s'.curr_pos s'.warned := by
  have hnb : ¬ (tx_pos < 0 ∨ get_tx_length cigar ≤ tx_pos) := by omega
  match cigar, hcigar with
  | [], _ =>
    simp only [get_tx_length, List.filter_nil, List.map_nil, List.sum_nil] at hlt
    omega
  | region0 :: rest, hcigar =>
    have hlen0 : 0 ≤ region0.1 := hcigar region0 (List.mem_cons_self region0 rest)
    obtain ⟨s', hs'⟩ :=
      walkLoop_isSome (region0 :: rest) tx_pos hcigar tx_pos.toNat
        (initSt mapping_start_pos region0) hlen0
        (by simp only [initSt, zero_add]; exact Int.self_le_toNat tx_pos)
    refine ⟨region0, rest, s', rfl, hs', ?_⟩
    simp only [map_coordinate, if_neg hnb, hs']

/-! ## The claims -/

/-- Claim C1, counterexample: for the encoding `"2M2I2M"` with mapping
start position 10, querying transcript position 2 warns and returns
genomic position 12 — not 13 as the claim states. -/
theorem claim_C1_counterexample :
    map_coordinate "2M2I2M" [(2, 'M'), (2, 'I'), (2, 'M')] 2 10 = MapResult.ok 12 true ∧
    map_coordinate "2M2I2M" [(2, 'M'), (2, 'I'), (2, 'M')] 2 10 ≠ MapResult.ok 13 true ∧
    map_coordinate "2M2I2M" [(2, 'M'), (2, 'I'), (2, 'M')] 2 10 ≠ MapResult.ok 13 false := by
  decide

/-- Claim C1 as amended: for the encoding `"2M2I2M"` (which parses to
regions `[(2,M),(2,I),(2,M)]`) with mapping start position 10,
`map_coordinate` emits the ambiguity warning and returns 12 for
transcript positions 2 and 3 (inside the 2-base insertion), and returns
10 for position 0, 11 for position 1, 12 for position 4, and 13 for
position 5 (without the warning). -/
theorem claim_C1_amended :
    parse_cigar_str "2M2I2M" = some [(2, 'M'), (2, 'I'), (2, 'M')] ∧
    map_coordinate "2M2I2M" [(2, 'M'), (2, 'I'), (2, 'M')] 0 10 = MapResult.ok 10 false ∧
    map_coordinate "2M2I2M" [(2, 'M'), (2, 'I'), (2, 'M')] 1 10 = MapResult.ok 11 false ∧
    map_coordinate "2M2I2M" [(2, 'M'), (2, 'I'), (2, 'M')] 2 10 = MapResult.ok 12 true ∧
    map_coordinate "2M2I2M" [(2, 'M'), (2, 'I'), (2, 'M')] 3 10 = MapResult.ok 12 true ∧
    map_coordinate "2M2I2M" [(2, 'M'), (2, 'I'), (2, 'M')] 4 10 = MapResult.ok 12 false ∧
    map_coordinate "2M2I2M" [(2, 'M'), (2, 'I'), (2, 'M')] 5 10 = MapResult.ok 13 false := by
  decide

/-- Claim C2, counterexample: for the encoding `"5D10M"` with mapping
start position 0, querying transcript position 0 returns genomic
position 0 (the loop body never executes), not 6 as the claim states. -/
theorem claim_C2_counterexample :
    map_coordinate "5D10M" [(5, 'D'), (10, 'M')] 0 0 = MapResult.ok 0 false ∧
    map_coordinate "5D10M" [(5, 'D'), (10, 'M')] 0 0 ≠ MapResult.ok 6 false ∧
    map_coordinate "5D10M" [(5, 'D'), (10, 'M')] 0 0 ≠ MapResult.ok 6 true := by
  decide

/-- Claim C2 as amended: for the encoding `"5D10M"` (which parses to
regions `[(5,D),(10,M)]`) with mapping start position 0, transcript
position 0 returns genomic coordinate 0 — the walk's loop body never
executes when the queried position is 0, so the mapping start position is
returned unchanged and the leading deletion is not crossed.  It is
transcript position 1 that returns 6 (5 deleted bases + 1 for the atomic
deletion-crossing step). -/
theorem claim_C2_amended :
    parse_cigar_str "5D10M" = some [(5, 'D'), (10, 'M')] ∧
    map_coordinate "5D10M" [(5, 'D'), (10, 'M')] 0 0 = MapResult.ok 0 false ∧
    map_coordinate "5D10M" [(5, 'D'), (10, 'M')] 1 0 = MapResult.ok 6 false := by
  decide

/-- Claim C3, counterexample: parsing the malformed encoding `"8M7"`
(trailing digits with no terminating operation symbol) does not fail — it
returns the region list `[(8,M)]`, silently dropping the trailing digits
(`int_list.pop()` removes the last split segment, and `zip` truncates the
unequal scans to the shorter one); parsing the empty string also
succeeds, returning the empty region list. -/
theorem claim_C3_counterexample :
    parse_cigar_str "8M7" = some [(8, 'M')] ∧
    parse_cigar_str "8M7" ≠ none ∧
    parse_cigar_str "" = some [] ∧
    parse_cigar_str "" ≠ none := by
  decide

/-- Claim C3 as amended: unequal scans are not a parse failure — the
parser pairs the two scans with `zip`, which silently truncates to the
shorter sequence, so `"8M7"` parses to `[(8,M)]` (the trailing `7` is
dropped by `int_list.pop()`) and the empty string parses to the empty
region sequence.  The parser fails only when a segment that remains
after the pop is not an integer literal, as in `"8MM"`, whose middle
segment is empty. -/
theorem claim_C3_amended :
    parse_cigar_str "8M7" = some [(8, 'M')] ∧
    parse_cigar_str "" = some [] ∧
    parse_cigar_str "8MM" = none := by
  decide

/-- Claim C4: for the encoding `"8M7D6M2I2M11D7M"` (which parses to
`[(8,M),(7,D),(6,M),(2,I),(2,M),(11,D),(7,M)]`) with mapping start
position 3, `map_coordinate` applied to transcript position 4 returns
genomic coordinate 7. -/
theorem claim_C4 :
    parse_cigar_str "8M7D6M2I2M11D7M" =
      some [(8, 'M'), (7, 'D'), (6, 'M'), (2, 'I'), (2, 'M'), (11, 'D'), (7, 'M')] ∧
    map_coordinate "8M7D6M2I2M11D7M"
      [(8, 'M'), (7, 'D'), (6, 'M'), (2, 'I'), (2, 'M'), (11, 'D'), (7, 'M')] 4 3 =
      MapResult.ok 7 false := by
  decide

/-- Claim C6: for every region list, `get_tx_length` (translated from the
code: filter the Match/Insertion regions, then sum their lengths) equals
the transcript length as the spec words it (each region contributes its
length when its operation is Match or Insertion, else 0); in particular
the transcript length of `"8M7D6M2I2M11D7M"` is 25. -/
theorem claim_C6 :
    (∀ cigar : List (Int × Char), get_tx_length cigar = transcriptLength_spec cigar) ∧
    parse_cigar_str "8M7D6M2I2M11D7M" =
      some [(8, 'M'), (7, 'D'), (6, 'M'), (2, 'I'), (2, 'M'), (11, 'D'), (7, 'M')] ∧
    get_tx_length [(8, 'M'), (7, 'D'), (6, 'M'), (2, 'I'), (2, 'M'), (11, 'D'), (7, 'M')] = 25 := by
  refine ⟨?_, by decide, by decide⟩
  intro cigar
  induction cigar with
  | nil => rfl
  | cons region rest ih =>
    by_cases h : region.2 = 'M' ∨ region.2 = 'I'
    · simp [get_tx_length, transcriptLength_spec, List.filter_cons, h] at ih ⊢
      omega
    · simp [get_tx_length, transcriptLength_spec, List.filter_cons, h] at ih ⊢
      push_neg at h
      simp [h.1, h.2, ih]

/-- Claim C8: parsing the well-formed encoding `"8M7D6M2I"` yields
exactly the ordered region sequence `[(8,M),(7,D),(6,M),(2,I)]`. -/
theorem claim_C8 :
    parse_cigar_str "8M7D6M2I" = some [(8, 'M'), (7, 'D'), (6, 'M'), (2, 'I')] := by
  decide

/-- Claim C5: for every region list, `map_coordinate` fails with an
out-of-bounds error exactly when the queried transcript position is
negative or at least the transcript length, and any out-of-bounds error
it produces reports the offending position, the computed transcript
length, and the original encoding string. -/
theorem claim_C5 (cigar_str : String) (cigar : List (Int × Char))
    (tx_pos mapping_start_pos : Int) :
    ((tx_pos < 0 ∨ get_tx_length cigar ≤ tx_pos) ↔
      map_coordinate cigar_str cigar tx_pos mapping_start_pos =
        MapResult.outOfBounds tx_pos (get_tx_length cigar) cigar_str) ∧
    (∀ p l e, map_coordinate cigar_str cigar tx_pos mapping_start_pos =
        MapResult.outOfBounds p l e →
      p = tx_pos ∧ l = get_tx_length cigar ∧ e = cigar_str) := by
  constructor
  · constructor
    · intro h
      simp [map_coordinate, if_pos h]
    · intro h
      by_contra hb
      cases cigar with
      | nil => simp [map_coordinate, if_neg hb] at h
      | cons region0 rest =>
        cases hw : walkLoop (region0 :: rest) tx_pos tx_pos.toNat
            (initSt mapping_start_pos region0) with
        | none => simp [map_coordinate, if_neg hb, hw] at h
        | some s => simp [map_coordinate, if_neg hb, hw] at h
  · intro p l e h
    by_cases hc : tx_pos < 0 ∨ get_tx_length cigar ≤ tx_pos
    · simp only [map_coordinate, if_pos hc] at h
      injection h with h1 h2 h3
      exact ⟨h1.symm, h2.symm, h3.symm⟩
    · cases cigar with
      | nil => simp [map_coordinate, if_neg hc] at h
      | cons region0 rest =>
        cases hw : walkLoop (region0 :: rest) tx_pos tx_pos.toNat
            (initSt mapping_start_pos region0) with
        | none => simp [map_coordinate, if_neg hc, hw] at h
        | some s => simp [map_coordinate, if_neg hc, hw] at h

/-- Witness for claim C5: the query at transcript position `-1` on the
encoding `"2M"` fails with the out-of-bounds error carrying the position,
the transcript length 2 and the encoding string. -/
theorem claim_C5_witness :
    map_coordinate "2M" [(2, 'M')] (-1) 0 = MapResult.outOfBounds (-1) 2 "2M" := by
  have h := (claim_C5 "2M" [(2, 'M')] (-1) 0).1.mp (Or.inl (by decide))
  simpa using h

/-- Claim C7: for every region list with no insertion regions (and, per
the data model, nonnegative region lengths), every mapping start
position, and every pair of consecutive valid transcript positions `p`
and `p + 1`, the genomic coordinate returned for `p + 1` is at least the
one returned for `p`. -/
theorem claim_C7 (cigar_str : String) (cigar : List (Int × Char))
    (mapping_start_pos p : Int)
    (hins : ∀ r ∈ cigar, r.2 ≠ 'I')
    (hlen : ∀ r ∈ cigar, 0 ≤ r.1)
    (h0 : 0 ≤ p) (hlt : p + 1 < get_tx_length cigar) :
    ∃ g w g' w',
      map_coordinate cigar_str cigar p mapping_start_pos = MapResult.ok g w ∧
      map_coordinate cigar_str cigar (p + 1) mapping_start_pos = MapResult.ok g' w' ∧
      g ≤ g' := by
  obtain ⟨r0, rest, sp, hc1, hwp, hmp⟩ :=
    map_coordinate_eq_ok cigar_str cigar p mapping_start_pos hlen h0 (by omega)
  obtain ⟨r0', rest', sq, hc2, hwq, hmq⟩ :=
    map_coordinate_eq_ok cigar_str cigar (p + 1) mapping_start_pos hlen (by omega) hlt
  subst hc1
  injection hc2 with h1 h2
  subst h1
  subst h2
  have hmem : r0 ∈ r0 :: rest := List.mem_cons_self r0 rest
  have key : sp.curr_pos ≤ sq.curr_pos :=
    walkLoop_curr_pos_mono (r0 :: rest) p (p + 1) hlen hins (by omega)
      (p + 1).toNat p.toNat (initSt mapping_start_pos r0) sp sq
      (by simpa [initSt] using hlen r0 hmem)
      (by simpa [initSt] using hins r0 hmem)
      hwp hwq
  exact ⟨sp.curr_pos, sp.warned, sq.curr_pos, sq.warned, hmp, hmq, key⟩

/-- Witness for claim C7: on the insertion-free encoding `"3M"` with
mapping start position 5, the genomic coordinates at consecutive
transcript positions 0 and 1 are in order. -/
theorem claim_C7_witness :
    ∃ g w g' w',
      map_coordinate "3M" [(3, 'M')] 0 5 = MapResult.ok g w ∧
      map_coordinate "3M" [(3, 'M')] 1 5 = MapResult.ok g' w' ∧
      g ≤ g' :=
  claim_C7 "3M" [(3, 'M')] 5 0 (by decide) (by decide) (by decide) (by decide)

/-- Claim C9: for every region list whose region lengths are nonnegative
(the data model's regions, including SoftClip, HardClip, Equal and
Mismatch operations) and every in-bounds transcript position, the walk
of `map_coordinate` terminates with a normal result: each loop iteration
increases `tx_ix` by at least one through the unconditional final
increment, even in iterations where the operation matches no handled
case and nothing else advances. -/
theorem claim_C9 (cigar_str : String) (cigar : List (Int × Char))
    (tx_pos mapping_start_pos : Int)
    (hlen : ∀ r ∈ cigar, 0 ≤ r.1)
    (h0 : 0 ≤ tx_pos) (hlt : tx_pos < get_tx_length cigar) :
    ∃ g w, map_coordinate cigar_str cigar tx_pos mapping_start_pos = MapResult.ok g w := by
  obtain ⟨r0, rest, s', _, _, hm⟩ :=
    map_coordinate_eq_ok cigar_str cigar tx_pos mapping_start_pos hlen h0 hlt
  exact ⟨s'.curr_pos, s'.warned, hm⟩

/-- Witness for claim C9: on the encoding `"2S3M"` — whose leading
SoftClip region matches no handled case of the walk — the in-bounds query
at transcript position 1 still terminates with a normal result. -/
theorem claim_C9_witness :
    ∃ g w, map_coordinate "2S3M" [(2, 'S'), (3, 'M')] 1 0 = MapResult.ok g w :=
  claim_C9 "2S3M" [(2, 'S'), (3, 'M')] 1 0 (by decide) (by decide) (by decide)

/-- Claim C10: whenever the bounds check of `map_coordinate` passes, the
transcript length is at least 1, so the region list is nonempty and the
initial read of region 0 cannot fail on an empty list. -/
theorem claim_C10 (cigar_str : String) (cigar : List (Int × Char))
    (tx_pos mapping_start_pos : Int)
    (h0 : 0 ≤ tx_pos) (hlt : tx_pos < get_tx_length cigar) :
    1 ≤ get_tx_length cigar ∧ cigar ≠ [] ∧
      map_coordinate cigar_str cigar tx_pos mapping_start_pos ≠ MapResult.emptyCigar := by
  have h1 : 1 ≤ get_tx_length cigar := by omega
  have h2 : cigar ≠ [] := by
    rintro rfl
    simp only [get_tx_length, List.filter_nil, List.map_nil, List.sum_nil] at hlt
    omega
  refine ⟨h1, h2, ?_⟩
  have hnb : ¬ (tx_pos < 0 ∨ get_tx_length cigar ≤ tx_pos) := by omega
  cases cigar with
  | nil => exact absurd rfl h2
  | cons region0 rest =>
    simp only [map_coordinate, if_neg hnb]
    split <;> exact fun h => MapResult.noConfusion h

/-- Witness for claim C10: the in-bounds query at transcript position 0
on the encoding `"2M"` has a transcript length of at least 1, a nonempty
region list, and does not hit the empty-list read. -/
theorem claim_C10_witness :
    1 ≤ get_tx_length [(2, 'M')] ∧ ([((2 : Int), 'M')] : List (Int × Char)) ≠ [] ∧
      map_coordinate "2M" [(2, 'M')] 0 7 ≠ MapResult.emptyCigar :=
  claim_C10 "2M" [(2, 'M')] 0 7 (by decide) (by decide)

end MapTxCoordinates
